import Mathlib

/-!
# Festival counter: feed normaliser and search-box state machine

A shallow embedding of `src/script.js`.

* JavaScript strings are modelled as `List Char`.  The feed text comes out of
  `Response.text()`, which always yields well-formed text, and on well-formed
  text splitting on a one-character separator, trimming and substring search
  act the same on code units and on code points.
* Platform services whose behaviour the script does not fix (`Date.parse`,
  `toLocaleDateString`, `toLowerCase`, the HTML parser behind `innerHTML`)
  are fields of `Env`; the general theorems hold for every `Env`, the
  examples run on `sampleEnv`.
* A `Date` is its time value: `some ms` with `ms` an integer count of
  milliseconds, or `none` for an invalid date (time value `NaN`).  Time values
  have magnitude at most 8.64e15 and are exact as Numbers; what the script
  computes from them is rounded as double-precision arithmetic rounds it
  (`toDouble`).
* `new Date()` is read from a clock: `clock i` is the instant at which the
  `i`-th data row is parsed.
* `Array.prototype.sort` is stable; on dates that are all valid its result
  is the one stable arrangement in date order.
* Module-level variables and the parts of the page the script writes to are
  the fields of `State`; each listener is a function `State → State`, and
  `fetchFestivals` is one step taken when the response settles.
-/

namespace FestivalCounter

/-- A JavaScript string. -/
abbrev JsString := List Char

/-! ## String primitives -/

/-- The code points removed by `String.prototype.trim`: ECMAScript
`WhiteSpace` (TAB, VT, FF, ZWNBSP and the space separators) and
`LineTerminator` (LF, CR, LS, PS). -/
def isTrimChar (c : Char) : Bool :=
  let n := c.toNat
  n == 0x09 || n == 0x0B || n == 0x0C || n == 0xFEFF ||
  n == 0x20 || n == 0xA0 || n == 0x1680 || (0x2000 ≤ n && n ≤ 0x200A) ||
  n == 0x202F || n == 0x205F || n == 0x3000 ||
  n == 0x0A || n == 0x0D || n == 0x2028 || n == 0x2029

/-- Model of `s.trim()`. -/
def trim (s : JsString) : JsString :=
  ((s.dropWhile isTrimChar).reverse.dropWhile isTrimChar).reverse

/-- Model of `s.split(sep)` for a one-character separator: the pieces between
the separators, `[""]` for the empty string. -/
def split (sep : Char) : JsString → List JsString
  | [] => [[]]
  | c :: cs =>
    if c = sep then [] :: split sep cs
    else
      match split sep cs with
      | [] => [[c]]
      | piece :: rest => (c :: piece) :: rest

/-- Model of `s.includes(q)`: `q` occurs in `s` at some position. -/
def includes : JsString → JsString → Bool
  | [], q => q.isEmpty
  | c :: cs, q => q.isPrefixOf (c :: cs) || includes cs q

/-- Truthiness of a string: it is non-empty. -/
def truthy (s : JsString) : Bool := !s.isEmpty

/-- Model of `a || b` for an optional string `a`: `b` when `a` is `undefined`
or empty. -/
def orDefault (a : Option JsString) (b : JsString) : JsString :=
  match a with
  | some s => if truthy s then s else b
  | none => b

/-! ## Platform services -/

/-- A `.item` element of the dropdown: its `textContent` and whether it
carries the class `active`. -/
structure Item where
  text : JsString
  active : Bool
deriving DecidableEq, Repr

/-- The platform services the script calls. -/
structure Env where
  /-- The time value `Date.parse` gives a string, `none` for `NaN`. -/
  parseDate : JsString → Option Int
  /-- The method `toLocaleDateString` with the script's fixed options. -/
  toLocaleDateString : Option Int → JsString
  /-- The method `String.prototype.toLowerCase`. -/
  toLowerCase : JsString → JsString
  /-- The elements `querySelectorAll(".item")` finds in the dropdown after
  the given markup was assigned to its `innerHTML`, in document order.  They
  are taken not to lie inside one another, as is the case for names without
  markup, so that a click reaches one listener. -/
  queryItems : JsString → List Item

/-! ## Records -/

/-- One object of the `data` array built by `fetchFestivals`. -/
structure Festival where
  name : JsString
  date : Option Int
  emoji : Option JsString
  region : Option JsString
  type : Option JsString
  days : Option Int
  displayDate : JsString
deriving DecidableEq, Repr

/-- Model of `new Date(date)` for `date` a string or `undefined`. -/
def newDate (env : Env) : Option JsString → Option Int
  | none => none
  | some s => env.parseDate s

/-- The integer nearest to `t`, the even one of the two when `t` lies half
way between them. -/
def roundHalfEven (t : ℚ) : Int :=
  if t - ⌊t⌋ < 1 / 2 then ⌊t⌋
  else if 1 / 2 < t - ⌊t⌋ then ⌊t⌋ + 1
  else if ⌊t⌋ % 2 = 0 then ⌊t⌋ else ⌊t⌋ + 1

/-- The Number nearest to the exact result `x` of an arithmetic operation:
round to nearest, ties to even, with a significand of 53 bits.  For
`2 ^ e ≤ |x| < 2 ^ (e + 1)` the Numbers around `x` are the multiples of
`2 ^ (e - 52)`.  The exponent range is not modelled: the results of this
script are 0 or lie between `2 ^ (-27)` and `2 ^ 55` in magnitude. -/
def toDouble (x : ℚ) : ℚ :=
  if x = 0 then 0
  else (roundHalfEven (x / 2 ^ (Int.log 2 |x| - 52)) : ℚ) * 2 ^ (Int.log 2 |x| - 52)

/-- Model of `Math.ceil((parsed - new Date()) / (1000 * 60 * 60 * 24))`;
`none` is `NaN`.  The two time values are exact Numbers, their difference is
rounded, the quotient of the rounded difference by 86400000 is rounded, and
`Math.ceil` of that is exact. -/
def daysUntil (parsed : Option Int) (now : Int) : Option Int :=
  parsed.map fun p => Int.ceil (toDouble (toDouble ((p - now : Int) : ℚ) / (1000 * 60 * 60 * 24)))

/-- The callback of `rows.slice(1).map(...)`: one data row to one record,
`now` being the value of `new Date()` in this call.  `split` never returns
an empty array, so `cols[0]` is always a string and so is `name`. -/
def parseRow (env : Env) (now : Int) (r : JsString) : Festival :=
  let cols := split ',' r
  let rawName := (cols[0]?.map trim).getD []
  let date := cols[1]?.map trim
  let emoji := cols[2]?.map trim
  let region := cols[3]?.map trim
  let type := cols[4]?.map trim
  let parsed := newDate env date
  let diff := daysUntil parsed now
  let displayDate := env.toLocaleDateString parsed
  { name := rawName, date := parsed, emoji := emoji, region := region,
    type := type, days := diff, displayDate := displayDate }

/-- Model of `csvText.split("\n").map(r => r.trim()).filter(r => r)`. -/
def rowsOf (csvText : JsString) : List JsString :=
  ((split '\n' csvText).map trim).filter truthy

/-- Model of `rows.slice(1)`: the data rows. -/
def dataRows (csvText : JsString) : List JsString :=
  (rowsOf csvText).drop 1

/-- The `data` array: every data row mapped by `parseRow`, the `i`-th one at
the instant `clock i`. -/
def dataOf (env : Env) (clock : Nat → Int) (csvText : JsString) : List Festival :=
  (dataRows csvText).enum.map fun p => parseRow env (clock p.1) p.2

/-- The predicate of `data.filter(f => f.name && !isNaN(f.date))`. -/
def keep (f : Festival) : Bool := truthy f.name && f.date.isSome

/-- The comparator `(a, b) => a.date - b.date`; `none` is `NaN`. -/
def compareDates (a b : Festival) : Option Int :=
  match a.date, b.date with
  | some x, some y => some (x - y)
  | _, _ => none

/-- The comparison `Array.prototype.sort` makes of two elements: the
comparator's result, a `NaN` result read as `+0`. -/
def sortCompare (a b : Festival) : Int := (compareDates a b).getD 0

/-- Model of `festivals.sort((a, b) => a.date - b.date)`.  The sort of an
array is stable, so with a consistent comparator its result is fixed: the
elements in comparator order, equal ones in their original order.  Insertion
from the right, each element placed before the first one it does not
exceed, computes that result. -/
def sortFestivals (l : List Festival) : List Festival :=
  l.insertionSort fun a b => sortCompare a b ≤ 0

/-- The canonical set assigned to `festivals` on a successful parse. -/
def canonicalOf (env : Env) (clock : Nat → Int) (csvText : JsString) : List Festival :=
  sortFestivals ((dataOf env clock csvText).filter keep)

/-! ## Rendering surface -/

/-- One card appended to `listSection` by `renderFestivals`. -/
structure Card where
  icon : JsString
  title : JsString
  meta : JsString
  displayDate : JsString
  daysLeft : JsString
  /-- The record the card's share button is bound to. -/
  share : Festival
deriving DecidableEq, Repr

/-- The content of `listSection`. -/
inductive ListSection where
  /-- The page's own markup, never written by the script. -/
  | untouched
  /-- The placeholder "No matching festivals found." -/
  | noMatch
  /-- The appended cards, in order. -/
  | cards (cs : List Card)
deriving DecidableEq, Repr

/-- The text of the `days-left` element. -/
def daysLeftText (days : Option Int) : JsString :=
  match days with
  | some d => if d ≥ 0 then (Nat.repr d.toNat).toList ++ " days".toList else "Passed".toList
  | none => "Passed".toList

/-- The card built for one record. -/
def cardOf (f : Festival) : Card :=
  { icon := orDefault f.emoji "🎉".toList
    title := f.name
    meta := orDefault f.region "Global".toList ++ " · ".toList ++ orDefault f.type "Festival".toList
    displayDate := f.displayDate
    daysLeft := daysLeftText f.days
    share := f }

/-- Model of `renderFestivals(list)`: the new content of `listSection`. -/
def renderFestivals (list : List Festival) : ListSection :=
  if list.length = 0 then ListSection.noMatch else ListSection.cards (list.map cardOf)

/-- The records shown by a content of `listSection`. -/
def ListSection.records : ListSection → List Festival
  | ListSection.untouched => []
  | ListSection.noMatch => []
  | ListSection.cards cs => cs.map Card.share

/-! ## Page state -/

/-- The value of `dropdown.style.display`. -/
inductive Display where
  /-- Never assigned by the script. -/
  | unset
  /-- Assigned `"none"`. -/
  | hidden
  /-- Assigned `"block"`. -/
  | block
deriving DecidableEq, Repr

/-- The module-level variables and the parts of the page the script writes. -/
structure State where
  festivals : List Festival
  filteredFestivals : List Festival
  activeIndex : Int
  /-- The property `searchInput.value`. -/
  searchValue : JsString
  /-- The `.item` elements inside `dropdown`. -/
  items : List Item
  dropdownDisplay : Display
  listSection : ListSection
  /-- The property `loadingEl.textContent`, `none` while the script has not
  assigned it. -/
  loadingText : Option JsString
deriving DecidableEq, Repr

/-- Modelled from the spec: the page markup is not part of the script, and
the search box starts in the state `Idle`, the query empty and no suggestion
in the dropdown.  This is the state once the script's top level has run,
before any event; the script itself sets `festivals`, `filteredFestivals` and
`activeIndex`. -/
def initialState : State :=
  { festivals := [], filteredFestivals := [], activeIndex := -1, searchValue := [],
    items := [], dropdownDisplay := Display.unset, listSection := ListSection.untouched,
    loadingText := none }

/-- The fixed message of the catch branch. -/
def errorText : JsString := "Error loading data. Check your Google Sheet URL.".toList

/-- Model of `fetchFestivals` from the moment the response settles: `res` is
the feed text, or `none` when `fetch` or `res.text()` rejects.  With no row
at all `rows[0]` is `undefined` and `rows[0].split` throws, which the catch
branch handles like a failed fetch. -/
def fetchFestivals (env : Env) (clock : Nat → Int) (res : Option JsString) (s : State) : State :=
  match res with
  | none => { s with loadingText := some errorText }
  | some csvText =>
    match rowsOf csvText with
    | [] => { s with loadingText := some errorText }
    | _ :: _ =>
      let festivals := canonicalOf env clock csvText
      { s with festivals := festivals, filteredFestivals := festivals,
               listSection := renderFestivals festivals }

/-! ## Search box and dropdown -/

/-- The markup the input handler assigns to `dropdown.innerHTML`. -/
def dropdownMarkup (found : List Festival) : JsString :=
  (found.map fun f => "<div class=\"item\">".toList ++ f.name ++ "</div>".toList).flatten

/-- The filter `festivals.filter(f => f.name.toLowerCase().includes(q))` of
the input handler and of the Enter fallback, `q` already lower-cased. -/
def searchFilter (env : Env) (festivals : List Festival) (q : JsString) : List Festival :=
  festivals.filter fun f => includes (env.toLowerCase f.name) q

/-- The click listener the input handler puts on every item, for the item
whose `textContent` is `name`. -/
def onItemClick (name : JsString) (s : State) : State :=
  let selected := s.festivals.filter fun f => f.name = name
  { s with searchValue := name, listSection := renderFestivals selected,
           dropdownDisplay := Display.hidden }

/-- The `input` listener of the search box; `v` is the box's new text. -/
def onInput (env : Env) (v : JsString) (s : State) : State :=
  let s := { s with searchValue := v }
  let q := env.toLowerCase v
  let s := { s with activeIndex := -1 }
  if q.isEmpty then
    { s with dropdownDisplay := Display.hidden, listSection := renderFestivals s.festivals }
  else
    let found := searchFilter env s.festivals q
    { s with items := env.queryItems (dropdownMarkup found)
             dropdownDisplay := if found.length = 0 then Display.hidden else Display.block }

/-- Model of `updateActive(items)`: exactly the item at `activeIndex` gets
the class `active`. -/
def updateActive (s : State) : State :=
  { s with items := s.items.enum.map fun p => { p.2 with active := decide ((p.1 : Int) = s.activeIndex) } }

/-- The keys the `keydown` listener tells apart. -/
inductive Key where
  | arrowDown
  | arrowUp
  | enter
  | other
deriving DecidableEq, Repr

/-- The `keydown` listener of the search box.  The operator `%` is the
truncating remainder `Int.tmod`; the zero it can yield with a minus sign
compares, indexes and prints as `0`.  An index with no item makes
`items[activeIndex].click()` throw, which ends the listener. -/
def onKeydown (env : Env) (k : Key) (s : State) : State :=
  if s.items.length = 0 then s
  else
    match k with
    | Key.arrowDown =>
      updateActive { s with activeIndex := (s.activeIndex + 1).tmod s.items.length }
    | Key.arrowUp =>
      updateActive { s with activeIndex := (s.activeIndex - 1 + s.items.length).tmod s.items.length }
    | Key.enter =>
      if s.activeIndex ≥ 0 then
        match s.items[s.activeIndex.toNat]? with
        | some item => onItemClick item.text s
        | none => s
      else
        let q := env.toLowerCase (trim s.searchValue)
        let matched := searchFilter env s.festivals q
        { s with listSection := renderFestivals matched, dropdownDisplay := Display.hidden }
    | Key.other => s

/-- The `click` listener of the show-all button. -/
def onShowAll (s : State) : State :=
  { s with searchValue := [], listSection := renderFestivals s.festivals,
           dropdownDisplay := Display.hidden }

/-- What can happen to the page. -/
inductive Event where
  /-- The feed request settles. -/
  | feed (clock : Nat → Int) (res : Option JsString)
  /-- The user edits the search box, leaving the text `v`. -/
  | input (v : JsString)
  /-- A key goes down in the search box. -/
  | keydown (k : Key)
  /-- The user clicks the `i`-th item of the dropdown. -/
  | click (i : Nat)
  /-- The user clicks the show-all button. -/
  | showAll

/-- One event applied to the page. -/
def step (env : Env) (s : State) : Event → State
  | Event.feed clock res => fetchFestivals env clock res s
  | Event.input v => onInput env v s
  | Event.keydown k => onKeydown env k s
  | Event.click i =>
    match s.items[i]? with
    | some item => onItemClick item.text s
    | none => s
  | Event.showAll => onShowAll s

/-- The page after a sequence of events, from the initial state. -/
def run (env : Env) (es : List Event) : State :=
  es.foldl (step env) initialState

/-- The states the page can be in. -/
def Reachable (env : Env) (s : State) : Prop := ∃ es, run env es = s

/-! ## A sample platform -/

/-- The value of a string of decimal digits, `none` when another character
occurs. -/
def digitsValue (s : JsString) : Option Nat :=
  s.foldl (fun acc c => if c.isDigit then acc.map fun n => 10 * n + (c.toNat - '0'.toNat) else none) (some 0)

/-- Days from 1970-01-01 to the given civil date, proleptic Gregorian. -/
def daysFromCivil (y m d : Nat) : Int :=
  let y' : Int := if m ≤ 2 then (y : Int) - 1 else y
  let era : Int := y' / 400
  let yoe : Int := y' - era * 400
  let mp : Int := if m ≤ 2 then (m : Int) + 9 else (m : Int) - 3
  let doy : Int := (153 * mp + 2) / 5 + (d : Int) - 1
  let doe : Int := yoe * 365 + yoe / 4 - yoe / 100 + doy
  era * 146097 + doe - 719468

/-- A date parser that reads the form `YYYY-MM-DD` as midnight UTC and
rejects everything else. -/
def sampleParseDate (s : JsString) : Option Int :=
  match split '-' s with
  | [ys, ms, ds] =>
    if ys.length = 4 ∧ ms.length = 2 ∧ ds.length = 2 then
      match digitsValue ys, digitsValue ms, digitsValue ds with
      | some y, some m, some d =>
        if 1 ≤ m ∧ m ≤ 12 ∧ 1 ≤ d ∧ d ≤ 31 then some (daysFromCivil y m d * 86400000) else none
      | _, _, _ => none
    else none
  | _ => none

/-- Reads markup of the shape `dropdownMarkup` writes, for names free of
markup characters: one item for each `<div class="item">…</div>`. -/
def sampleQueryItems : Nat → JsString → List Item
  | 0, _ => []
  | fuel + 1, html =>
    let opening := "<div class=\"item\">".toList
    if opening.isPrefixOf html then
      let body := html.drop opening.length
      let text := body.takeWhile fun c => c ≠ '<'
      { text := text, active := false } ::
        sampleQueryItems fuel ((body.dropWhile fun c => c ≠ '<').drop "</div>".length)
    else []

/-- A platform for the examples: ISO dates, ASCII lower-casing. -/
def sampleEnv : Env :=
  { parseDate := sampleParseDate
    toLocaleDateString := fun d =>
      match d with
      | some t => (toString t).toList
      | none => "Invalid Date".toList
    toLowerCase := fun s => s.map Char.toLower
    queryItems := fun html => sampleQueryItems html.length html }

/-- The feed of the examples: a header, three well-formed rows out of date
order, a row with no name and a row with no usable date. -/
def sampleFeed : JsString :=
  "name,date,emoji,region,type\nLunar New Year,2026-02-17,🧧,Asia,Cultural\n Diwali , 2025-11-01 ,🪔,India,Religious\r\n\n,2026-01-01,x,y,z\nHalloween,2025-10-31\nNowhere,not-a-date,?,?,?\n".toList

/-- A clock standing at 2025-10-01T00:00:00Z. -/
def sampleClock : Nat → Int := fun _ => 1759276800000

/-! ## Specification vocabulary -/

/-- The trimmed first comma-separated field of a data row is non-empty. -/
def nameGiven (r : JsString) : Bool :=
  match split ',' r with
  | first :: _ => truthy (trim first)
  | [] => false

/-- The data row has a second comma-separated field and, trimmed, it parses
as a valid date. -/
def dateParses (env : Env) (r : JsString) : Bool :=
  match split ',' r with
  | _ :: second :: _ => (env.parseDate (trim second)).isSome
  | _ => false

/-- The data row yields a record of the canonical set. -/
def rowAccepted (env : Env) (r : JsString) : Bool := nameGiven r && dateParses env r

/-- The records of the accepted data rows, in feed order. -/
def acceptedRecords (env : Env) (clock : Nat → Int) (csvText : JsString) : List Festival :=
  ((dataRows csvText).enum.filter fun p => rowAccepted env p.2).map
    fun p => parseRow env (clock p.1) p.2

/-- The timestamp of a record, 0 for an invalid date. -/
def dateKey (f : Festival) : Int := f.date.getD 0

/-- The highlighted index is `-1` or the index of an item. -/
def IndexInRange (s : State) : Prop :=
  s.activeIndex = -1 ∨ (0 ≤ s.activeIndex ∧ s.activeIndex < s.items.length)

/-- The view the Enter fallback would render if it filtered by the query
text as it stands in the search box. -/
def viewOfQueryText (env : Env) (s : State) : List Festival :=
  s.festivals.filter fun f =>
    decide (env.toLowerCase s.searchValue <:+: env.toLowerCase f.name)

/-- The feed arrives, then the user types `zzz`, which no name contains. -/
def typedNoMatch : List Event :=
  [Event.feed sampleClock (some sampleFeed), Event.input "zzz".toList]

/-- The feed arrives, then the user types a blank followed by `n`. -/
def typedBlankN : List Event :=
  [Event.feed sampleClock (some sampleFeed), Event.input " n".toList]

/-- The feed arrives, the user types `n`, highlights the first suggestion
and clicks show-all. -/
def highlightedThenShowAll : List Event :=
  [Event.feed sampleClock (some sampleFeed), Event.input "n".toList,
    Event.keydown Key.arrowDown, Event.showAll]

/-- The feed arrives, then the user types `n`. -/
def typedN : List Event :=
  [Event.feed sampleClock (some sampleFeed), Event.input "n".toList]

/-- Skips `skip` characters, then replaces every `&amp;` by `&`, as the
parser of the page does with this character reference. -/
def decodeAmp : Nat → JsString → JsString
  | _, [] => []
  | skip + 1, _ :: rest => decodeAmp skip rest
  | 0, c :: rest =>
    if "&amp;".toList.isPrefixOf (c :: rest) then '&' :: decodeAmp 4 rest
    else c :: decodeAmp 0 rest

/-- The sample platform with a parser that decodes `&amp;` in the text of
the items. -/
def entityEnv : Env :=
  { sampleEnv with
    queryItems := fun html =>
      (sampleEnv.queryItems html).map fun item => { item with text := decodeAmp 0 item.text } }

/-- A feed with one festival whose name holds a character reference. -/
def entityFeed : JsString := "name,date\nAT&amp;T Fest,2026-01-01\n".toList

/-- The feed `entityFeed` arrives, then the user types `fest`. -/
def typedFest : List Event :=
  [Event.feed sampleClock (some entityFeed), Event.input "fest".toList]

/-- The latest instant a `Date` can hold, as an ISO string. -/
def farDate : JsString := "+275760-09-13T00:00:00.000Z".toList

/-- The sample platform with a date parser that also reads `farDate`, the
time value 8640000000000000. -/
def farEnv : Env :=
  { sampleEnv with
    parseDate := fun s => if s = farDate then some 8640000000000000 else sampleParseDate s }

/-- A clock standing 3024000000000001 ms before the epoch. -/
def farClock : Nat → Int := fun _ => -3024000000000001

/-- A data row with the date `farDate`. -/
def farRow : JsString := "Far,+275760-09-13T00:00:00.000Z".toList

/-- A feed whose only data row is `farRow`. -/
def farFeed : JsString := "name,date\nFar,+275760-09-13T00:00:00.000Z\n".toList

/-! ## Lemmas: parsing -/

theorem split_ne_nil (sep : Char) (s : JsString) : split sep s ≠ [] := by
  cases s with
  | nil => simp [split]
  | cons c cs =>
    simp only [split]
    split_ifs
    · simp
    · cases split sep cs <;> simp

theorem trim_eq_nil_iff (l : JsString) : trim l = [] ↔ ∀ c ∈ l, isTrimChar c = true := by
  unfold trim
  rw [List.reverse_eq_nil_iff, List.dropWhile_eq_nil_iff]
  simp only [List.mem_reverse]
  constructor
  · intro h
    have hnil : l.dropWhile isTrimChar = [] := by
      by_contra hne
      have h1 := List.head_dropWhile_not isTrimChar l hne
      have h2 := h _ (List.head_mem hne)
      rw [h1] at h2
      exact Bool.false_ne_true h2
    exact List.dropWhile_eq_nil_iff.mp hnil
  · intro h x hx
    exact h x ((List.dropWhile_sublist _).subset hx)

theorem forall_mem_split (p : Char → Bool) (sep : Char) (hp : p sep = true) (s : JsString) :
    (∀ line ∈ split sep s, ∀ c ∈ line, p c = true) ↔ ∀ c ∈ s, p c = true := by
  induction s with
  | nil => simp [split]
  | cons c cs ih =>
    by_cases hc : c = sep
    · subst hc
      simp [split, ih, hp]
    · rcases hs : split sep cs with _ | ⟨piece, rest⟩
      · exact absurd hs (split_ne_nil _ _)
      · rw [hs] at ih
        simp only [split, hc, if_false, hs]
        rw [List.forall_mem_cons] at ih ⊢
        rw [List.forall_mem_cons, List.forall_mem_cons, ← ih]
        tauto

theorem no_nonblank_line_iff (csvText : JsString) :
    (∀ line ∈ split '\n' csvText, trim line = []) ↔ ∀ c ∈ csvText, isTrimChar c = true := by
  rw [← forall_mem_split isTrimChar '\n' (by decide) csvText]
  constructor
  · intro h line hl
    exact (trim_eq_nil_iff line).mp (h line hl)
  · intro h line hl
    exact (trim_eq_nil_iff line).mpr (h line hl)

theorem keep_parseRow (env : Env) (now : Int) (r : JsString) :
    keep (parseRow env now r) = rowAccepted env r := by
  unfold keep parseRow rowAccepted nameGiven dateParses
  rcases h : split ',' r with _ | ⟨a, _ | ⟨b, t⟩⟩
  · exact absurd h (split_ne_nil _ _)
  · simp [newDate]
  · simp [newDate]

theorem filter_keep_dataOf (env : Env) (clock : Nat → Int) (csvText : JsString) :
    (dataOf env clock csvText).filter keep = acceptedRecords env clock csvText := by
  unfold dataOf acceptedRecords
  rw [List.filter_map]
  congr 1
  apply List.filter_congr
  intro p _
  simp [keep_parseRow]

/-! ## Lemmas: sorting -/

theorem sortCompare_le_iff {a b : Festival} (ha : a.date.isSome) (hb : b.date.isSome) :
    sortCompare a b ≤ 0 ↔ dateKey a ≤ dateKey b := by
  unfold sortCompare compareDates dateKey
  cases hx : a.date with
  | none => simp [hx] at ha
  | some x =>
    cases hy : b.date with
    | none => simp [hy] at hb
    | some y => simp

theorem orderedInsert_congr (a : Festival) (l : List Festival)
    (ha : a.date.isSome) (hl : ∀ x ∈ l, x.date.isSome) :
    l.orderedInsert (fun a b => sortCompare a b ≤ 0) a =
      l.orderedInsert (fun a b => dateKey a ≤ dateKey b) a := by
  induction l with
  | nil => rfl
  | cons b t ih =>
    have hb : b.date.isSome := hl b (List.mem_cons_self _ _)
    have ht : ∀ x ∈ t, x.date.isSome := fun x hx => hl x (List.mem_cons_of_mem _ hx)
    simp only [List.orderedInsert, sortCompare_le_iff ha hb, ih ht]

theorem sortFestivals_eq (l : List Festival) (hl : ∀ x ∈ l, x.date.isSome) :
    sortFestivals l = l.insertionSort (fun a b => dateKey a ≤ dateKey b) := by
  unfold sortFestivals
  induction l with
  | nil => rfl
  | cons a t ih =>
    have ha : a.date.isSome := hl a (List.mem_cons_self _ _)
    have ht : ∀ x ∈ t, x.date.isSome := fun x hx => hl x (List.mem_cons_of_mem _ hx)
    simp only [List.insertionSort, ih ht]
    apply orderedInsert_congr a _ ha
    intro x hx
    exact ht x ((List.perm_insertionSort _ t).subset hx)

theorem sortFestivals_perm (l : List Festival) : (sortFestivals l).Perm l :=
  List.perm_insertionSort _ l

theorem sortFestivals_sorted (l : List Festival) (hl : ∀ x ∈ l, x.date.isSome) :
    (sortFestivals l).Pairwise (fun a b => dateKey a ≤ dateKey b) := by
  rw [sortFestivals_eq l hl]
  haveI : IsTotal Festival (fun a b => dateKey a ≤ dateKey b) := ⟨fun a b => le_total _ _⟩
  haveI : IsTrans Festival (fun a b => dateKey a ≤ dateKey b) := ⟨fun _ _ _ h1 h2 => le_trans h1 h2⟩
  exact List.sorted_insertionSort (fun a b => dateKey a ≤ dateKey b) l

theorem canonicalOf_perm (env : Env) (clock : Nat → Int) (csvText : JsString) :
    (canonicalOf env clock csvText).Perm (acceptedRecords env clock csvText) := by
  unfold canonicalOf
  rw [filter_keep_dataOf]
  exact sortFestivals_perm _

theorem canonicalOf_date_isSome (env : Env) (clock : Nat → Int) (csvText : JsString) :
    ∀ f ∈ canonicalOf env clock csvText, f.date.isSome := by
  intro f hf
  have h := (sortFestivals_perm _).subset hf
  have h2 := (List.mem_filter.mp h).2
  unfold keep at h2
  simp only [Bool.and_eq_true] at h2
  exact h2.2

theorem canonicalOf_sorted (env : Env) (clock : Nat → Int) (csvText : JsString) :
    (canonicalOf env clock csvText).Pairwise (fun a b => dateKey a ≤ dateKey b) := by
  unfold canonicalOf
  apply sortFestivals_sorted
  intro f hf
  have h2 := (List.mem_filter.mp hf).2
  unfold keep at h2
  simp only [Bool.and_eq_true] at h2
  exact h2.2

theorem fetchFestivals_ok (env : Env) (clock : Nat → Int) (csvText : JsString)
    (s : State) (h : rowsOf csvText ≠ []) :
    fetchFestivals env clock (some csvText) s =
      { s with festivals := canonicalOf env clock csvText,
               filteredFestivals := canonicalOf env clock csvText,
               listSection := renderFestivals (canonicalOf env clock csvText) } := by
  obtain ⟨a, t, hr⟩ := List.exists_cons_of_ne_nil h
  simp only [fetchFestivals, hr]

theorem fetchFestivals_festivals (env : Env) (clock : Nat → Int) (csvText : JsString)
    (s : State) (h : rowsOf csvText ≠ []) :
    (fetchFestivals env clock (some csvText) s).festivals = canonicalOf env clock csvText := by
  rw [fetchFestivals_ok env clock csvText s h]

theorem length_filter_enum (p : JsString → Bool) (l : List JsString) :
    (l.enum.filter fun q => p q.2).length = l.countP p := by
  rw [← List.countP_eq_length_filter]
  conv_rhs => rw [← List.enum_map_snd l, List.countP_map]
  rfl

theorem countP_rows (env : Env) (l : List JsString) :
    l.countP (rowAccepted env) + l.countP (fun r => !dateParses env r) +
      l.countP (fun r => dateParses env r && !nameGiven r) = l.length := by
  induction l with
  | nil => rfl
  | cons r t ih =>
    simp only [List.countP_cons, List.length_cons]
    have key : (if rowAccepted env r = true then 1 else 0) +
        (if (!dateParses env r) = true then 1 else 0) +
        (if (dateParses env r && !nameGiven r) = true then 1 else 0) = 1 := by
      unfold rowAccepted
      cases nameGiven r <;> cases dateParses env r <;> rfl
    omega

/-- C1: on a feed with at least one non-blank line the canonical set is, up
to order, the list of records of the data rows whose trimmed first field is
non-empty and whose trimmed second field parses as a date, one record per
such row and nothing else; it is no longer than the list of data rows, and
its length is the number of data rows less one for every row whose date does
not parse and one for every row with a parsing date and an empty name. -/
theorem fetchFestivals_holds_accepted_rows (env : Env) (clock : Nat → Int)
    (csvText : JsString) (s : State) (h : rowsOf csvText ≠ []) :
    (fetchFestivals env clock (some csvText) s).festivals.Perm
        (acceptedRecords env clock csvText) ∧
      (fetchFestivals env clock (some csvText) s).festivals.length ≤ (dataRows csvText).length ∧
      (fetchFestivals env clock (some csvText) s).festivals.length +
          (dataRows csvText).countP (fun r => !dateParses env r) +
          (dataRows csvText).countP (fun r => dateParses env r && !nameGiven r) =
        (dataRows csvText).length := by
  rw [fetchFestivals_festivals env clock csvText s h]
  have hlen : (canonicalOf env clock csvText).length = (dataRows csvText).countP (rowAccepted env) := by
    rw [(canonicalOf_perm env clock csvText).length_eq]
    unfold acceptedRecords
    rw [List.length_map, length_filter_enum]
  have hsum := countP_rows env (dataRows csvText)
  refine ⟨canonicalOf_perm env clock csvText, ?_, ?_⟩
  · rw [hlen]; exact List.countP_le_length _
  · rw [hlen]; exact hsum

/-- The sample feed: five data rows, one without a name, one without a
usable date, three records. -/
theorem fetchFestivals_holds_accepted_rows_witness :
    rowsOf sampleFeed ≠ [] ∧ (dataRows sampleFeed).length = 5 ∧
      (dataRows sampleFeed).countP (fun r => !dateParses sampleEnv r) = 1 ∧
      (dataRows sampleFeed).countP (fun r => dateParses sampleEnv r && !nameGiven r) = 1 ∧
      (fetchFestivals sampleEnv sampleClock (some sampleFeed) initialState).festivals.length +
          (dataRows sampleFeed).countP (fun r => !dateParses sampleEnv r) +
          (dataRows sampleFeed).countP (fun r => dateParses sampleEnv r && !nameGiven r) =
        (dataRows sampleFeed).length :=
  ⟨by decide, by decide, by decide, by decide,
    (fetchFestivals_holds_accepted_rows sampleEnv sampleClock sampleFeed initialState
      (by decide)).2.2⟩

/-- C2: after a successful parse any two adjacent records of the canonical
set carry valid dates, the earlier one's timestamp at most the later one's. -/
theorem fetchFestivals_sorted_by_date (env : Env) (clock : Nat → Int)
    (csvText : JsString) (s : State) (h : rowsOf csvText ≠ []) (i : Nat) (a b : Festival)
    (ha : (fetchFestivals env clock (some csvText) s).festivals[i]? = some a)
    (hb : (fetchFestivals env clock (some csvText) s).festivals[i + 1]? = some b) :
    ∃ x y, a.date = some x ∧ b.date = some y ∧ x ≤ y := by
  rw [fetchFestivals_festivals env clock csvText s h] at ha hb
  obtain ⟨hi, rfl⟩ := List.getElem?_eq_some.mp ha
  obtain ⟨hj, rfl⟩ := List.getElem?_eq_some.mp hb
  have hs := List.pairwise_iff_getElem.mp (canonicalOf_sorted env clock csvText) i (i + 1) hi hj
    (Nat.lt_succ_self i)
  have hda := canonicalOf_date_isSome env clock csvText _ (List.getElem_mem hi)
  have hdb := canonicalOf_date_isSome env clock csvText _ (List.getElem_mem hj)
  obtain ⟨x, hx⟩ := Option.isSome_iff_exists.mp hda
  obtain ⟨y, hy⟩ := Option.isSome_iff_exists.mp hdb
  refine ⟨x, y, hx, hy, ?_⟩
  simpa [dateKey, hx, hy] using hs

/-- The first two records of the sample feed's canonical set are in date
order. -/
theorem fetchFestivals_sorted_by_date_witness :
    rowsOf sampleFeed ≠ [] ∧
      ∃ x y,
        ((fetchFestivals sampleEnv sampleClock (some sampleFeed) initialState).festivals.get
            ⟨0, by decide⟩).date = some x ∧
        ((fetchFestivals sampleEnv sampleClock (some sampleFeed) initialState).festivals.get
            ⟨1, by decide⟩).date = some y ∧ x ≤ y :=
  ⟨by decide,
    fetchFestivals_sorted_by_date sampleEnv sampleClock sampleFeed initialState (by decide) 0 _ _
      (List.getElem?_eq_getElem _) (List.getElem?_eq_getElem _)⟩

/-! ## Lemmas: rendering and searching -/

theorem records_renderFestivals (l : List Festival) : (renderFestivals l).records = l := by
  unfold renderFestivals
  cases l with
  | nil => rfl
  | cons a t =>
    simp only [List.length_cons, Nat.succ_ne_zero, if_false, ListSection.records, List.map_map]
    exact List.map_id _

theorem includes_iff (s q : JsString) : includes s q = true ↔ q <:+: s := by
  induction s with
  | nil => simp [includes, List.isEmpty_iff]
  | cons c cs ih =>
    simp only [includes, Bool.or_eq_true, ih, List.isPrefixOf_iff_prefix]
    exact List.infix_cons_iff.symm

theorem rowsOf_eq_nil (csvText : JsString)
    (h : ∀ line ∈ split '\n' csvText, trim line = []) : rowsOf csvText = [] := by
  unfold rowsOf
  rw [List.filter_eq_nil_iff]
  intro r hr
  obtain ⟨line, hline, rfl⟩ := List.mem_map.mp hr
  simp [truthy, h line hline]

theorem searchFilter_eq_contains (env : Env) (festivals : List Festival) (q : JsString) :
    searchFilter env festivals q =
      festivals.filter (fun f => decide (q <:+: env.toLowerCase f.name)) := by
  unfold searchFilter
  apply List.filter_congr
  intro f _
  rw [Bool.eq_iff_iff]
  simp [includes_iff]

/-- C3: the substring filter of the search, given the lower-cased query,
returns the canonical records whose lower-cased name has the lower-cased
query as a contiguous part, each as often and in the order the canonical
set has it, so the result is a subsequence of the canonical set.  The input
handler builds the suggestion markup from that result, and the Enter
fallback renders it for the trimmed text of the search box. -/
theorem searchFilter_exact (env : Env) (festivals : List Festival) (q : JsString) :
    searchFilter env festivals (env.toLowerCase q) =
        festivals.filter (fun f => decide (env.toLowerCase q <:+: env.toLowerCase f.name)) ∧
      (searchFilter env festivals (env.toLowerCase q)).Sublist festivals ∧
      (∀ f, f ∈ searchFilter env festivals (env.toLowerCase q) ↔
        f ∈ festivals ∧ env.toLowerCase q <:+: env.toLowerCase f.name) ∧
      (∀ s : State, env.toLowerCase q ≠ [] →
        (onInput env q s).items =
          env.queryItems (dropdownMarkup (searchFilter env s.festivals (env.toLowerCase q)))) ∧
      (∀ s : State, s.items ≠ [] → s.activeIndex < 0 → trim s.searchValue = q →
        (onKeydown env Key.enter s).listSection.records =
          searchFilter env s.festivals (env.toLowerCase q)) := by
  refine ⟨searchFilter_eq_contains env festivals _, List.filter_sublist _, ?_, ?_, ?_⟩
  · intro f
    unfold searchFilter
    simp [List.mem_filter, includes_iff]
  · intro s hq
    have hq2 : (env.toLowerCase q).isEmpty = false := by
      cases hl : env.toLowerCase q with
      | nil => exact absurd hl hq
      | cons c cs => rfl
    simp [onInput, hq2]
  · intro s hn hi hq
    have hlen : s.items.length ≠ 0 := fun h0 => hn (List.length_eq_zero.mp h0)
    have hneg : ¬ s.activeIndex ≥ 0 := by omega
    simp only [onKeydown, hlen, hneg, if_false, records_renderFestivals, hq]

/-- The filter at work: in the sample feed exactly Halloween and Lunar New
Year contain `N` in some case. -/
theorem searchFilter_exact_witness :
    sampleEnv.toLowerCase "N".toList ≠ [] ∧
      (searchFilter sampleEnv (run sampleEnv typedN).festivals
          (sampleEnv.toLowerCase "N".toList)).map Festival.name =
        ["Halloween".toList, "Lunar New Year".toList] ∧
      (onInput sampleEnv "N".toList (run sampleEnv typedN)).items =
        sampleEnv.queryItems (dropdownMarkup (searchFilter sampleEnv
          (run sampleEnv typedN).festivals (sampleEnv.toLowerCase "N".toList))) :=
  ⟨by decide, by decide,
    (searchFilter_exact sampleEnv [] "N".toList).2.2.2.1 (run sampleEnv typedN) (by decide)⟩

theorem item_of_shown (s : State) (found : List Festival) (i : Nat) (f : Festival)
    (hshown : s.items.map Item.text = found.map Festival.name) (hf : found[i]? = some f) :
    ∃ item, s.items[i]? = some item ∧ item.text = f.name := by
  have h1 : (s.items.map Item.text)[i]? = some f.name := by
    rw [hshown, List.getElem?_map, hf]
    rfl
  rw [List.getElem?_map] at h1
  cases hi : s.items[i]? with
  | none => rw [hi] at h1; cases h1
  | some item =>
    rw [hi] at h1
    exact ⟨item, rfl, Option.some.inj h1⟩

theorem updateActive_texts (s : State) :
    (updateActive s).items.map Item.text = s.items.map Item.text := by
  simp only [updateActive, List.map_map]
  conv_rhs => rw [← List.enum_map_snd s.items, List.map_map]
  rfl

theorem onInput_shows (env : Env) (s : State) (v : JsString) (hv : env.toLowerCase v ≠ []) :
    (onInput env v s).items =
        env.queryItems (dropdownMarkup (searchFilter env s.festivals (env.toLowerCase v))) ∧
      (onInput env v s).festivals = s.festivals := by
  have hq : (env.toLowerCase v).isEmpty = false := by
    cases hl : env.toLowerCase v with
    | nil => exact absurd hl hv
    | cons c cs => rfl
  simp [onInput, hq]

/-- C4, as stated, fails for a name that the page's parser does not read
back unchanged: for the record named `AT&amp;T Fest` the suggestion's item
shows `AT&T Fest`, and clicking it puts `AT&T Fest` in the search box and
renders the empty-list placeholder, although the canonical set holds the
record with the suggestion's name. -/
theorem click_markup_counterexample :
    (searchFilter entityEnv (run entityEnv typedFest).festivals
        (entityEnv.toLowerCase "fest".toList)).map Festival.name = ["AT&amp;T Fest".toList] ∧
      (run entityEnv typedFest).items.map Item.text = ["AT&T Fest".toList] ∧
      (step entityEnv (run entityEnv typedFest) (Event.click 0)).searchValue =
        "AT&T Fest".toList ∧
      (step entityEnv (run entityEnv typedFest) (Event.click 0)).searchValue ≠
        "AT&amp;T Fest".toList ∧
      (step entityEnv (run entityEnv typedFest) (Event.click 0)).listSection =
        ListSection.noMatch ∧
      ((run entityEnv typedFest).festivals.filter
        fun f => decide (f.name = "AT&amp;T Fest".toList)).map Festival.name =
          ["AT&amp;T Fest".toList] := by
  refine ⟨?_, ?_, ?_, ?_, ?_, ?_⟩ <;> decide

/-- C4, amended: when the items of the dropdown carry as their texts the
names of the canonical records `found`, in order, as they do after an input
whose suggestion markup the platform reads back as the names, clicking the
`i`-th item commits the `i`-th suggestion `f`: the search box gets the full
name of `f`, the view is exactly the canonical records with that name, all
of them and in canonical order, `f` among them, and the dropdown is hidden. -/
theorem click_commits_suggestion (env : Env) (s : State) (found : List Festival) (i : Nat)
    (f : Festival)
    (hshown : s.items.map Item.text = found.map Festival.name)
    (hcanon : ∀ g ∈ found, g ∈ s.festivals)
    (hf : found[i]? = some f) :
    (step env s (Event.click i)).searchValue = f.name ∧
      (step env s (Event.click i)).listSection =
        renderFestivals (s.festivals.filter fun g => decide (g.name = f.name)) ∧
      (step env s (Event.click i)).listSection.records =
        s.festivals.filter (fun g => decide (g.name = f.name)) ∧
      f ∈ (step env s (Event.click i)).listSection.records ∧
      ((step env s (Event.click i)).listSection.records).Sublist s.festivals ∧
      (∀ g, g ∈ (step env s (Event.click i)).listSection.records ↔
        g ∈ s.festivals ∧ g.name = f.name) ∧
      (step env s (Event.click i)).dropdownDisplay = Display.hidden ∧
      ∀ (s0 : State) (v : JsString), env.toLowerCase v ≠ [] →
        (env.queryItems (dropdownMarkup
            (searchFilter env s0.festivals (env.toLowerCase v)))).map Item.text =
          (searchFilter env s0.festivals (env.toLowerCase v)).map Festival.name →
        (onInput env v s0).items.map Item.text =
            (searchFilter env s0.festivals (env.toLowerCase v)).map Festival.name ∧
          ∀ g ∈ searchFilter env s0.festivals (env.toLowerCase v),
            g ∈ (onInput env v s0).festivals := by
  obtain ⟨item, hitem, htext⟩ := item_of_shown s found i f hshown hf
  have hfmem : f ∈ s.festivals := hcanon f (List.getElem?_mem hf)
  have hstep : step env s (Event.click i) = onItemClick f.name s := by
    simp only [step, hitem, htext]
  rw [hstep]
  simp only [onItemClick, records_renderFestivals]
  refine ⟨trivial, trivial, trivial, ?_, List.filter_sublist _, ?_, trivial, ?_⟩
  · simp [List.mem_filter, hfmem]
  · intro g
    simp [List.mem_filter]
  · intro s0 v hv hplat
    obtain ⟨h1, h2⟩ := onInput_shows env s0 v hv
    rw [h1, h2]
    refine ⟨hplat, ?_⟩
    intro g hg
    exact (List.mem_filter.mp hg).1

/-- Clicking the only suggestion offered for a blank and `n`: its item shows
the name Lunar New Year, which becomes the query text. -/
theorem click_commits_suggestion_witness :
    (run sampleEnv typedBlankN).items.map Item.text =
        (searchFilter sampleEnv (run sampleEnv typedBlankN).festivals " n".toList).map
          Festival.name ∧
      ((searchFilter sampleEnv (run sampleEnv typedBlankN).festivals " n".toList).get
          ⟨0, by decide⟩).name = "Lunar New Year".toList ∧
      (step sampleEnv (run sampleEnv typedBlankN) (Event.click 0)).searchValue =
        ((searchFilter sampleEnv (run sampleEnv typedBlankN).festivals " n".toList).get
          ⟨0, by decide⟩).name ∧
      (step sampleEnv (run sampleEnv typedBlankN) (Event.click 0)).dropdownDisplay =
        Display.hidden :=
  ⟨by decide, by decide,
    (click_commits_suggestion sampleEnv (run sampleEnv typedBlankN)
      (searchFilter sampleEnv (run sampleEnv typedBlankN).festivals " n".toList) 0 _
      (by decide) (fun _ hg => (List.mem_filter.mp hg).1) (List.getElem?_eq_getElem _)).1,
    (click_commits_suggestion sampleEnv (run sampleEnv typedBlankN)
      (searchFilter sampleEnv (run sampleEnv typedBlankN).festivals " n".toList) 0 _
      (by decide) (fun _ hg => (List.mem_filter.mp hg).1)
      (List.getElem?_eq_getElem (by decide))).2.2.2.2.2.2.1⟩

/-- C7: whatever the prior state, the show-all action renders the whole
canonical set, every record in canonical order, and hides the dropdown. -/
theorem showAll_renders_canonical (s : State) :
    (onShowAll s).listSection = renderFestivals s.festivals ∧
      (onShowAll s).listSection.records = s.festivals ∧
      (onShowAll s).festivals = s.festivals ∧
      (onShowAll s).dropdownDisplay = Display.hidden := by
  simp only [onShowAll, records_renderFestivals]
  exact ⟨trivial, trivial, trivial, trivial⟩

/-- C10: a feed with no non-blank line takes the error path: the loading
message becomes the fixed error text and nothing else changes, so from the
initial state the canonical set stays empty and the list is left untouched,
not replaced by the empty-list placeholder; a feed whose only non-blank line
is the header succeeds with an empty canonical set and renders the
placeholder. -/
theorem fetchFestivals_blank_feed_fails (env : Env) (clock : Nat → Int) (s : State)
    (blank headerOnly header : JsString)
    (hb : ∀ line ∈ split '\n' blank, trim line = [])
    (hh : rowsOf headerOnly = [header]) :
    fetchFestivals env clock (some blank) s = { s with loadingText := some errorText } ∧
      (fetchFestivals env clock (some blank) initialState).festivals = [] ∧
      (fetchFestivals env clock (some blank) initialState).listSection = ListSection.untouched ∧
      fetchFestivals env clock (some headerOnly) s =
        { s with festivals := [], filteredFestivals := [],
                 listSection := ListSection.noMatch } := by
  have hfail : ∀ s0 : State,
      fetchFestivals env clock (some blank) s0 = { s0 with loadingText := some errorText } := by
    intro s0
    simp only [fetchFestivals, rowsOf_eq_nil blank hb]
  refine ⟨hfail s, ?_, ?_, ?_⟩
  · rw [hfail]; rfl
  · rw [hfail]; rfl
  · have hne : rowsOf headerOnly ≠ [] := by simp [hh]
    rw [fetchFestivals_ok env clock headerOnly s hne]
    have hc : canonicalOf env clock headerOnly = [] := by
      simp [canonicalOf, dataOf, dataRows, hh, sortFestivals]
    rw [hc]
    rfl

/-- A feed of blanks and line ends fails from the initial state, leaving
the list untouched; a feed of one header line gives the placeholder. -/
theorem fetchFestivals_blank_feed_fails_witness :
    (∀ line ∈ split '\n' " \n\t\r\n".toList, trim line = []) ∧
      rowsOf "name,date\n".toList = ["name,date".toList] ∧
      fetchFestivals sampleEnv sampleClock (some " \n\t\r\n".toList) initialState =
        { initialState with loadingText := some errorText } ∧
      fetchFestivals sampleEnv sampleClock (some "name,date\n".toList) initialState =
        { initialState with festivals := [], filteredFestivals := [],
                            listSection := ListSection.noMatch } :=
  ⟨by decide, by decide,
    (fetchFestivals_blank_feed_fails sampleEnv sampleClock initialState " \n\t\r\n".toList
      "name,date\n".toList "name,date".toList (by decide) (by decide)).1,
    (fetchFestivals_blank_feed_fails sampleEnv sampleClock initialState " \n\t\r\n".toList
      "name,date\n".toList "name,date".toList (by decide) (by decide)).2.2.2⟩

/-! ## Lemmas: keyboard navigation -/

theorem updateActive_activeIndex (s : State) : (updateActive s).activeIndex = s.activeIndex := rfl

theorem updateActive_items_length (s : State) : (updateActive s).items.length = s.items.length := by
  simp [updateActive]

theorem tmod_in_range (a n : Int) (hn : 0 < n) (ha : 0 ≤ a ∨ (a = -1 ∧ n = 1)) :
    0 ≤ a.tmod n ∧ a.tmod n < n := by
  rcases ha with ha | ⟨rfl, rfl⟩
  · rw [Int.tmod_eq_emod ha (le_of_lt hn)]
    exact ⟨Int.emod_nonneg _ (ne_of_gt hn), Int.emod_lt_of_pos _ hn⟩
  · decide

theorem arrowDown_activeIndex (env : Env) (s : State) (h : IndexInRange s)
    (hn : 1 ≤ s.items.length) :
    (onKeydown env Key.arrowDown s).activeIndex = (s.activeIndex + 1) % (s.items.length : Int) ∧
      (onKeydown env Key.arrowDown s).items.length = s.items.length := by
  have hne : s.items.length ≠ 0 := by omega
  have hpos : 0 ≤ s.activeIndex + 1 := by
    rcases h with h | h <;> omega
  simp only [onKeydown, hne, if_false, updateActive_activeIndex, updateActive_items_length]
  exact ⟨Int.tmod_eq_emod hpos (by omega), trivial⟩

theorem arrowUp_activeIndex (env : Env) (s : State) (hn : 1 ≤ s.items.length) :
    (onKeydown env Key.arrowUp s).activeIndex =
        (s.activeIndex - 1 + s.items.length).tmod (s.items.length : Int) ∧
      (onKeydown env Key.arrowUp s).items.length = s.items.length := by
  have hne : s.items.length ≠ 0 := by omega
  simp only [onKeydown, hne, if_false, updateActive_activeIndex, updateActive_items_length]
  exact ⟨trivial, trivial⟩

theorem onKeydown_indexInRange (env : Env) (k : Key) (s : State) (h : IndexInRange s) :
    IndexInRange (onKeydown env k s) := by
  by_cases hz : s.items.length = 0
  · simpa [onKeydown, hz] using h
  · have hn : 1 ≤ s.items.length := by omega
    have hpos : (0 : Int) < s.items.length := by omega
    cases k with
    | arrowDown =>
      obtain ⟨h1, h2⟩ := arrowDown_activeIndex env s h hn
      right
      rw [h1, h2]
      exact ⟨Int.emod_nonneg _ (ne_of_gt hpos), Int.emod_lt_of_pos _ hpos⟩
    | arrowUp =>
      obtain ⟨h1, h2⟩ := arrowUp_activeIndex env s hn
      right
      rw [h1, h2]
      apply tmod_in_range _ _ hpos
      rcases h with h | h <;> omega
    | enter =>
      simp only [onKeydown, hz, if_false]
      split_ifs with hge
      · cases hi : s.items[s.activeIndex.toNat]? with
        | none => simpa using h
        | some item => simpa [onItemClick] using h
      · exact h
    | other => simpa [onKeydown, hz] using h

theorem fetchFestivals_keeps_dropdown (env : Env) (clock : Nat → Int) (res : Option JsString)
    (s : State) :
    (fetchFestivals env clock res s).activeIndex = s.activeIndex ∧
      (fetchFestivals env clock res s).items = s.items := by
  unfold fetchFestivals
  split
  · exact ⟨rfl, rfl⟩
  · split <;> exact ⟨rfl, rfl⟩

theorem step_indexInRange (env : Env) (s : State) (e : Event) (h : IndexInRange s) :
    IndexInRange (step env s e) := by
  cases e with
  | feed clock res =>
    obtain ⟨h1, h2⟩ := fetchFestivals_keeps_dropdown env clock res s
    unfold IndexInRange
    simp only [step, h1, h2]
    exact h
  | input v =>
    left
    simp only [step, onInput]
    split_ifs <;> rfl
  | keydown k => exact onKeydown_indexInRange env k s h
  | click i =>
    simp only [step]
    cases s.items[i]? with
    | none => exact h
    | some item => exact h
  | showAll => exact h

theorem foldl_indexInRange (env : Env) (es : List Event) (s : State) (h : IndexInRange s) :
    IndexInRange (es.foldl (step env) s) := by
  induction es generalizing s with
  | nil => exact h
  | cons e t ih => exact ih _ (step_indexInRange env s e h)

theorem reachable_indexInRange (env : Env) (s : State) (h : Reachable env s) :
    IndexInRange s := by
  obtain ⟨es, rfl⟩ := h
  exact foldl_indexInRange env es initialState (Or.inl rfl)

/-- C5: in a reachable state whose dropdown holds `n ≥ 1` items, ArrowDown
and ArrowUp leave the items in place and the highlighted index inside
`[0, n)`: ArrowDown turns `i` into `(i + 1) mod n`, so `n - 1` into `0`, and
ArrowUp turns an index `i` of `[0, n)` into `(i - 1) mod n`, so `0` into
`n - 1`. -/
theorem arrows_stay_in_range (env : Env) (s : State) (hr : Reachable env s)
    (hn : 1 ≤ s.items.length) :
    ((onKeydown env Key.arrowDown s).items.length = s.items.length ∧
      0 ≤ (onKeydown env Key.arrowDown s).activeIndex ∧
      (onKeydown env Key.arrowDown s).activeIndex < s.items.length ∧
      (onKeydown env Key.arrowDown s).activeIndex = (s.activeIndex + 1) % (s.items.length : Int) ∧
      (s.activeIndex = s.items.length - 1 → (onKeydown env Key.arrowDown s).activeIndex = 0)) ∧
    ((onKeydown env Key.arrowUp s).items.length = s.items.length ∧
      0 ≤ (onKeydown env Key.arrowUp s).activeIndex ∧
      (onKeydown env Key.arrowUp s).activeIndex < s.items.length ∧
      (0 ≤ s.activeIndex →
        (onKeydown env Key.arrowUp s).activeIndex = (s.activeIndex - 1) % (s.items.length : Int)) ∧
      (s.activeIndex = 0 → (onKeydown env Key.arrowUp s).activeIndex = s.items.length - 1)) := by
  have hinv := reachable_indexInRange env s hr
  have hpos : (0 : Int) < s.items.length := by omega
  obtain ⟨hd, hdl⟩ := arrowDown_activeIndex env s hinv hn
  obtain ⟨hu, hul⟩ := arrowUp_activeIndex env s hn
  have hur : 0 ≤ (s.activeIndex - 1 + s.items.length).tmod (s.items.length : Int) ∧
      (s.activeIndex - 1 + s.items.length).tmod (s.items.length : Int) < s.items.length := by
    apply tmod_in_range _ _ hpos
    rcases hinv with h | h <;> omega
  have hup : 0 ≤ s.activeIndex →
      (s.activeIndex - 1 + s.items.length).tmod (s.items.length : Int) =
        (s.activeIndex - 1) % (s.items.length : Int) := by
    intro h0
    rw [Int.tmod_eq_emod (by omega) (le_of_lt hpos), Int.add_emod_self]
  refine ⟨⟨hdl, ?_, ?_, hd, ?_⟩, ⟨hul, ?_, ?_, ?_, ?_⟩⟩
  · rw [hd]; exact Int.emod_nonneg _ (ne_of_gt hpos)
  · rw [hd]; exact Int.emod_lt_of_pos _ hpos
  · intro h
    rw [hd, h]
    simp
  · rw [hu]; exact hur.1
  · rw [hu]; exact hur.2
  · intro h0
    rw [hu]; exact hup h0
  · intro h0
    rw [hu, hup (by omega), h0]
    have : ((0 : Int) - 1) = (s.items.length - 1) + (-1) * s.items.length := by ring
    rw [this, Int.add_mul_emod_self]
    exact Int.emod_eq_of_lt (by omega) (by omega)

/-- With the two suggestions for `n` and no highlight yet, ArrowDown
highlights the first one. -/
theorem arrows_stay_in_range_witness :
    Reachable sampleEnv (run sampleEnv typedN) ∧ 1 ≤ (run sampleEnv typedN).items.length ∧
      0 ≤ (onKeydown sampleEnv Key.arrowDown (run sampleEnv typedN)).activeIndex ∧
      (onKeydown sampleEnv Key.arrowDown (run sampleEnv typedN)).activeIndex <
        (run sampleEnv typedN).items.length :=
  ⟨⟨typedN, rfl⟩, by decide,
    (arrows_stay_in_range sampleEnv (run sampleEnv typedN) ⟨typedN, rfl⟩ (by decide)).1.2.1,
    (arrows_stay_in_range sampleEnv (run sampleEnv typedN) ⟨typedN, rfl⟩ (by decide)).1.2.2.1⟩

/-! ## Enter, show-all, day counts -/

/-- C6, as stated, fails twice.  With no item in the dropdown Enter does
nothing: after `zzz` the three cards of the full list stay although no name
contains `zzz`.  With an item and no highlight Enter filters by the trimmed
text: after a blank and `n` it shows Halloween too, whose name has no blank. -/
theorem enter_fallback_counterexample :
    ((run sampleEnv typedNoMatch).activeIndex = -1 ∧
      (run sampleEnv typedNoMatch).items = [] ∧
      (viewOfQueryText sampleEnv (run sampleEnv typedNoMatch)).map Festival.name = [] ∧
      (onKeydown sampleEnv Key.enter (run sampleEnv typedNoMatch)).listSection.records.map
          Festival.name =
        ["Halloween".toList, "Diwali".toList, "Lunar New Year".toList] ∧
      (onKeydown sampleEnv Key.enter (run sampleEnv typedNoMatch)).listSection.records ≠
        viewOfQueryText sampleEnv (run sampleEnv typedNoMatch)) ∧
    ((run sampleEnv typedBlankN).activeIndex = -1 ∧
      (run sampleEnv typedBlankN).items.map Item.text = ["Lunar New Year".toList] ∧
      (viewOfQueryText sampleEnv (run sampleEnv typedBlankN)).map Festival.name =
        ["Lunar New Year".toList] ∧
      (onKeydown sampleEnv Key.enter (run sampleEnv typedBlankN)).listSection.records.map
          Festival.name =
        ["Halloween".toList, "Lunar New Year".toList] ∧
      (onKeydown sampleEnv Key.enter (run sampleEnv typedBlankN)).listSection.records ≠
        viewOfQueryText sampleEnv (run sampleEnv typedBlankN)) := by
  have hA : (onKeydown sampleEnv Key.enter (run sampleEnv typedNoMatch)).listSection.records.map
      Festival.name ≠ (viewOfQueryText sampleEnv (run sampleEnv typedNoMatch)).map Festival.name := by
    decide
  have hB : (onKeydown sampleEnv Key.enter (run sampleEnv typedBlankN)).listSection.records.map
      Festival.name ≠ (viewOfQueryText sampleEnv (run sampleEnv typedBlankN)).map Festival.name := by
    decide
  refine ⟨⟨by decide, by decide, by decide, by decide, fun h => hA (congrArg _ h)⟩,
    ⟨by decide, by decide, by decide, by decide, fun h => hB (congrArg _ h)⟩⟩

/-- C6, amended: with no highlighted suggestion and at least one item in the
dropdown, Enter renders the view of exactly the canonical records whose
lower-cased name contains the lower-cased, trimmed query text, in canonical
order, and hides the dropdown. -/
theorem enter_fallback_trimmed (env : Env) (s : State)
    (hi : s.activeIndex = -1) (hn : s.items ≠ []) :
    (onKeydown env Key.enter s).listSection =
        renderFestivals (s.festivals.filter fun f =>
          decide (env.toLowerCase (trim s.searchValue) <:+: env.toLowerCase f.name)) ∧
      (onKeydown env Key.enter s).listSection.records =
        s.festivals.filter (fun f =>
          decide (env.toLowerCase (trim s.searchValue) <:+: env.toLowerCase f.name)) ∧
      (onKeydown env Key.enter s).dropdownDisplay = Display.hidden := by
  have hlen : s.items.length ≠ 0 := fun h0 => hn (List.length_eq_zero.mp h0)
  have hneg : ¬ s.activeIndex ≥ 0 := by omega
  refine ⟨?_, ?_, ?_⟩ <;>
    simp only [onKeydown, hlen, hneg, if_false, records_renderFestivals, searchFilter_eq_contains]

/-- The amended fallback after a blank and `n` were typed. -/
theorem enter_fallback_trimmed_witness :
    (run sampleEnv typedBlankN).activeIndex = -1 ∧ (run sampleEnv typedBlankN).items ≠ [] ∧
      (onKeydown sampleEnv Key.enter (run sampleEnv typedBlankN)).dropdownDisplay =
        Display.hidden :=
  ⟨by decide, by decide,
    (enter_fallback_trimmed sampleEnv (run sampleEnv typedBlankN) (by decide) (by decide)).2.2⟩

theorem onKeydown_without_items (env : Env) (k : Key) (s : State) (h : s.items = []) :
    onKeydown env k s = s := by
  simp [onKeydown, h]

theorem onShowAll_activeIndex (s : State) :
    (onShowAll s).activeIndex = s.activeIndex ∧ (onShowAll s).items = s.items ∧
      (onShowAll s).searchValue = [] :=
  ⟨rfl, rfl, rfl⟩

/-- C8 at a concrete input: after the first suggestion was highlighted,
show-all empties the search box but leaves the highlighted index at `0`,
with the two stale items still in the hidden dropdown, so that a following
Enter commits the stale suggestion. -/
theorem showAll_keeps_highlight :
    (run sampleEnv highlightedThenShowAll).searchValue = [] ∧
      (run sampleEnv highlightedThenShowAll).activeIndex = 0 ∧
      (run sampleEnv highlightedThenShowAll).items.map Item.text =
        ["Halloween".toList, "Lunar New Year".toList] ∧
      (run sampleEnv highlightedThenShowAll).dropdownDisplay = Display.hidden ∧
      (onKeydown sampleEnv Key.enter (run sampleEnv highlightedThenShowAll)).searchValue =
        "Halloween".toList ∧
      (onKeydown sampleEnv Key.enter (run sampleEnv highlightedThenShowAll)).listSection.records.map
          Festival.name = ["Halloween".toList] := by
  refine ⟨?_, ?_, ?_, ?_, ?_, ?_⟩ <;> decide

theorem mem_acceptedRecords (env : Env) (clock : Nat → Int) (csvText : JsString) (f : Festival)
    (hf : f ∈ acceptedRecords env clock csvText) :
    ∃ i r, (dataRows csvText)[i]? = some r ∧ f = parseRow env (clock i) r := by
  unfold acceptedRecords at hf
  obtain ⟨⟨i, r⟩, hp, rfl⟩ := List.mem_map.mp hf
  have hmem := (List.mem_filter.mp hp).1
  exact ⟨i, r, List.mk_mem_enum_iff_getElem?.mp hmem, rfl⟩

/-! ## Day counts in double precision -/

theorem roundHalfEven_intCast (n : Int) : roundHalfEven (n : ℚ) = n := by
  unfold roundHalfEven
  simp

theorem abs_roundHalfEven_sub_le (t : ℚ) : |((roundHalfEven t : Int) : ℚ) - t| ≤ 1 / 2 := by
  unfold roundHalfEven
  have h1 := Int.floor_le t
  have h2 := Int.lt_floor_add_one t
  split_ifs <;> (rw [abs_le]; constructor <;> push_cast <;> linarith)

theorem log_lt_of_abs_lt (x : ℚ) (hx : x ≠ 0) (n : Int) (h : |x| < 2 ^ n) :
    Int.log 2 |x| < n := by
  have := (Int.lt_zpow_iff_log_lt (b := 2) (by norm_num) (x := n) (abs_pos.mpr hx)).mp
    (by simpa using h)
  exact this

theorem toDouble_intCast (n : Int) (h : |(n : ℚ)| < 2 ^ 53) : toDouble n = n := by
  by_cases hn : (n : ℚ) = 0
  · simp [toDouble, hn]
  · have he : Int.log 2 |(n : ℚ)| < 53 := log_lt_of_abs_lt _ hn 53 (by exact_mod_cast h)
    obtain ⟨k, hk⟩ : ∃ k : ℕ, Int.log 2 |(n : ℚ)| - 52 = -(k : ℤ) :=
      ⟨(52 - Int.log 2 |(n : ℚ)|).toNat, by omega⟩
    have hpow : (2 : ℚ) ^ (Int.log 2 |(n : ℚ)| - 52) = ((2 : ℚ) ^ k)⁻¹ := by
      rw [hk, zpow_neg, zpow_natCast]
    have hpos : (0 : ℚ) < 2 ^ k := by positivity
    simp only [toDouble, hn, if_false, hpow]
    have hcast : (n : ℚ) / ((2 : ℚ) ^ k)⁻¹ = ((n * 2 ^ k : ℤ) : ℚ) := by
      push_cast
      rw [div_inv_eq_mul]
    rw [hcast, roundHalfEven_intCast]
    push_cast
    field_simp

theorem toDouble_error (q : ℚ) (h : |q| < 2 ^ 27) : |toDouble q - q| ≤ 1 / 2 ^ 27 := by
  by_cases hq : q = 0
  · simp [toDouble, hq]
  · have he : Int.log 2 |q| < 27 := log_lt_of_abs_lt _ hq 27 (by exact_mod_cast h)
    have hupos : (0 : ℚ) < 2 ^ (Int.log 2 |q| - 52) := by positivity
    have hule : (2 : ℚ) ^ (Int.log 2 |q| - 52) ≤ 2 ^ (-26 : ℤ) :=
      zpow_le_zpow_right₀ (by norm_num) (by omega)
    have hr := abs_roundHalfEven_sub_le (q / 2 ^ (Int.log 2 |q| - 52))
    have heq : toDouble q - q =
        (((roundHalfEven (q / 2 ^ (Int.log 2 |q| - 52)) : ℤ) : ℚ) - q / 2 ^ (Int.log 2 |q| - 52)) *
          2 ^ (Int.log 2 |q| - 52) := by
      simp only [toDouble, hq, if_false]
      field_simp
    rw [heq, abs_mul, abs_of_pos hupos]
    calc _ ≤ (1 / 2 : ℚ) * 2 ^ (-26 : ℤ) := by
          apply mul_le_mul hr hule (le_of_lt hupos) (by norm_num)
      _ = 1 / 2 ^ 27 := by norm_num

theorem ceil_toDouble_quotient (x : Int) (h : |(x : ℚ)| < 2 ^ 53) :
    ⌈toDouble (toDouble (x : ℚ) / 86400000)⌉ = ⌈(x : ℚ) / 86400000⌉ := by
  rw [toDouble_intCast x h]
  have hlt : |(x : ℚ) / 86400000| < 2 ^ 27 := by
    rw [abs_div, div_lt_iff₀ (by norm_num)]
    calc |(x : ℚ)| < 2 ^ 53 := h
      _ ≤ 2 ^ 27 * |(86400000 : ℚ)| := by norm_num
  have herr := abs_le.mp (toDouble_error _ hlt)
  have hc1 : ((⌈(x : ℚ) / 86400000⌉ : ℤ) : ℚ) - 1 < (x : ℚ) / 86400000 := by
    have := Int.ceil_lt_add_one ((x : ℚ) / 86400000)
    linarith
  have hc2 : (x : ℚ) / 86400000 ≤ ⌈(x : ℚ) / 86400000⌉ := Int.le_ceil _
  have hlow : ((⌈(x : ℚ) / 86400000⌉ : ℤ) : ℚ) - 1 + 1 / 86400000 ≤ (x : ℚ) / 86400000 := by
    have h1 : (⌈(x : ℚ) / 86400000⌉ - 1) * 86400000 < x := by
      have : (((⌈(x : ℚ) / 86400000⌉ - 1) * 86400000 : ℤ) : ℚ) < (x : ℚ) := by
        push_cast
        rw [lt_div_iff₀ (by norm_num)] at hc1
        exact hc1
      exact_mod_cast this
    have h2 : (⌈(x : ℚ) / 86400000⌉ - 1) * 86400000 + 1 ≤ x := h1
    have h3 : (((⌈(x : ℚ) / 86400000⌉ - 1) * 86400000 + 1 : ℤ) : ℚ) ≤ (x : ℚ) := by exact_mod_cast h2
    push_cast at h3
    rw [le_div_iff₀ (by norm_num)]
    linarith
  rw [Int.ceil_eq_iff]
  constructor
  · have : (1 : ℚ) / 2 ^ 27 < 1 / 86400000 := by norm_num
    linarith [herr.1]
  · by_cases hint : (x : ℚ) / 86400000 = ⌈(x : ℚ) / 86400000⌉
    · have hcb : |((⌈(x : ℚ) / 86400000⌉ : ℤ) : ℚ)| < 2 ^ 53 := by
        rw [← hint]
        exact lt_trans hlt (by norm_num)
      have hfix : toDouble ((x : ℚ) / 86400000) = (x : ℚ) / 86400000 := by
        rw [hint]
        exact toDouble_intCast _ hcb
      rw [hfix]
      exact hc2
    · have hlt2 : (x : ℚ) / 86400000 < ⌈(x : ℚ) / 86400000⌉ := lt_of_le_of_ne hc2 hint
      have h1 : x < ⌈(x : ℚ) / 86400000⌉ * 86400000 := by
        have : (x : ℚ) < ((⌈(x : ℚ) / 86400000⌉ * 86400000 : ℤ) : ℚ) := by
          push_cast
          rw [div_lt_iff₀ (by norm_num)] at hlt2
          exact hlt2
        exact_mod_cast this
      have h2 : x + 1 ≤ ⌈(x : ℚ) / 86400000⌉ * 86400000 := h1
      have h3 : ((x + 1 : ℤ) : ℚ) ≤ ((⌈(x : ℚ) / 86400000⌉ * 86400000 : ℤ) : ℚ) := by
        exact_mod_cast h2
      push_cast at h3
      have h4 : (x : ℚ) / 86400000 + 1 / 86400000 ≤ ⌈(x : ℚ) / 86400000⌉ := by
        rw [← add_div, div_le_iff₀ (by norm_num)]
        exact h3
      have : (1 : ℚ) / 2 ^ 27 < 1 / 86400000 := by norm_num
      linarith [herr.2]

theorem toDouble_of_binade (x : ℚ) (e : Int) (hx : x ≠ 0) (h1 : 2 ^ e ≤ |x|)
    (h2 : |x| < 2 ^ (e + 1)) :
    toDouble x = (roundHalfEven (x / 2 ^ (e - 52)) : ℚ) * 2 ^ (e - 52) := by
  have hpos : 0 < |x| := abs_pos.mpr hx
  have hle : e ≤ Int.log 2 |x| :=
    (Int.zpow_le_iff_le_log (b := 2) (by norm_num) hpos).mp (by simpa using h1)
  have hlt : Int.log 2 |x| < e + 1 := log_lt_of_abs_lt x hx (e + 1) h2
  have he : Int.log 2 |x| = e := by omega
  simp only [toDouble, hx, if_false, he]

theorem daysUntil_of_small_difference (date now : Int) (hb : |date - now| < 2 ^ 53) :
    daysUntil (some date) now = some ⌈((date - now : Int) : ℚ) / 86400000⌉ := by
  have hq : |((date - now : Int) : ℚ)| < 2 ^ 53 := by exact_mod_cast hb
  have h := ceil_toDouble_quotient (date - now) hq
  simp only [daysUntil, Option.map_some']
  norm_num
  norm_num at h
  exact h

theorem toDouble_far_difference :
    toDouble ((8640000000000000 - (-3024000000000001) : Int) : ℚ) = 11664000000000000 := by
  have hfl : ⌊(11664000000000001 : ℚ) / 2⌋ = 5832000000000000 := by
    rw [Int.floor_eq_iff]
    norm_num
  have hround : roundHalfEven ((11664000000000001 : ℚ) / 2) = 5832000000000000 := by
    unfold roundHalfEven
    rw [hfl]
    norm_num
  have h := toDouble_of_binade (11664000000000001 : ℚ) 53 (by norm_num)
    (by rw [abs_of_pos (by norm_num)]; norm_num) (by rw [abs_of_pos (by norm_num)]; norm_num)
  norm_num at h ⊢
  rw [h, hround]
  norm_num

theorem daysUntil_far :
    daysUntil (some 8640000000000000) (-3024000000000001) = some 135000000 := by
  simp only [daysUntil, Option.map_some']
  rw [toDouble_far_difference]
  have hq : (11664000000000000 : ℚ) / (1000 * 60 * 60 * 24) = ((135000000 : Int) : ℚ) := by
    norm_num
  rw [hq, toDouble_intCast _ (by norm_num), Int.ceil_intCast]

/-- C9, as stated, fails on a clock far from the date: for the latest
instant a `Date` can hold, parsed at 3024000000000001 ms before the epoch,
the difference 11664000000000001 is not a Number and rounds to
11664000000000000, so the record of the canonical set gets 135000000 days
where the ceiling of the exact quotient is 135000001. -/
theorem days_rounding_counterexample :
    parseRow farEnv (farClock 0) farRow ∈
        (fetchFestivals farEnv farClock (some farFeed) initialState).festivals ∧
      (parseRow farEnv (farClock 0) farRow).date = some 8640000000000000 ∧
      (parseRow farEnv (farClock 0) farRow).days = some 135000000 ∧
      ⌈((8640000000000000 - farClock 0 : Int) : ℚ) / 86400000⌉ = 135000001 ∧
      (parseRow farEnv (farClock 0) farRow).days ≠
        some ⌈((8640000000000000 - farClock 0 : Int) : ℚ) / 86400000⌉ := by
  have hdate : (parseRow farEnv (farClock 0) farRow).date = some 8640000000000000 := by decide
  have hdays : (parseRow farEnv (farClock 0) farRow).days = some 135000000 := by
    have h0 : (parseRow farEnv (farClock 0) farRow).days =
        daysUntil (parseRow farEnv (farClock 0) farRow).date (farClock 0) := rfl
    rw [h0, hdate]
    exact daysUntil_far
  have hceil : ⌈((8640000000000000 - farClock 0 : Int) : ℚ) / 86400000⌉ = 135000001 := by
    rw [Int.ceil_eq_iff]
    simp only [farClock]
    norm_num
  refine ⟨?_, hdate, hdays, hceil, ?_⟩
  · rw [fetchFestivals_festivals farEnv farClock farFeed initialState (by decide)]
    apply (canonicalOf_perm farEnv farClock farFeed).symm.subset
    unfold acceptedRecords
    refine List.mem_map.mpr ⟨(0, farRow), List.mem_filter.mpr ⟨?_, by decide⟩, rfl⟩
    exact List.mk_mem_enum_iff_getElem?.mpr (by decide)
  · rw [hdays, hceil]
    decide

/-- C9, amended: every record of the canonical set is the record of a data
row parsed at that row's own instant `now` and has a valid `date`; and
whenever `|date - now| < 2 ^ 53`, both in integer milliseconds, its `days` is
the ceiling of `(date - now) / 86400000`. -/
theorem days_is_ceiling_of_day_difference (env : Env) (clock : Nat → Int)
    (csvText : JsString) (s : State) (h : rowsOf csvText ≠ []) (f : Festival)
    (hf : f ∈ (fetchFestivals env clock (some csvText) s).festivals) :
    (∃ i r, (dataRows csvText)[i]? = some r ∧ f = parseRow env (clock i) r) ∧
      (∃ date, f.date = some date) ∧
      ∀ i r date, (dataRows csvText)[i]? = some r → f = parseRow env (clock i) r →
        f.date = some date → |date - clock i| < 2 ^ 53 →
        f.days = some ⌈((date - clock i : Int) : ℚ) / 86400000⌉ := by
  rw [fetchFestivals_festivals env clock csvText s h] at hf
  refine ⟨mem_acceptedRecords env clock csvText f
      ((canonicalOf_perm env clock csvText).subset hf),
    Option.isSome_iff_exists.mp (canonicalOf_date_isSome env clock csvText f hf), ?_⟩
  intro i r date _ hfr hd hb
  have hdays : f.days = daysUntil f.date (clock i) := by
    rw [hfr]; rfl
  rw [hdays, hd]
  exact daysUntil_of_small_difference date (clock i) hb

/-- Halloween, first in the sample feed's canonical set, is 30 days after the
clock's instant. -/
theorem days_is_ceiling_of_day_difference_witness :
    rowsOf sampleFeed ≠ [] ∧
      ((fetchFestivals sampleEnv sampleClock (some sampleFeed) initialState).festivals.get
          ⟨0, by decide⟩).date = some 1761868800000 ∧
      (∀ i, |1761868800000 - sampleClock i| < 2 ^ 53) ∧
      ((fetchFestivals sampleEnv sampleClock (some sampleFeed) initialState).festivals.get
          ⟨0, by decide⟩).days = some 30 := by
  have hdate : ((fetchFestivals sampleEnv sampleClock (some sampleFeed)
      initialState).festivals.get ⟨0, by decide⟩).date = some 1761868800000 := by decide
  have hbound : ∀ i, |1761868800000 - sampleClock i| < 2 ^ 53 := by
    intro i
    simp only [sampleClock]
    norm_num
  refine ⟨by decide, hdate, hbound, ?_⟩
  obtain ⟨⟨i, r, hr, hfr⟩, -, hall⟩ :=
    days_is_ceiling_of_day_difference sampleEnv sampleClock sampleFeed initialState (by decide) _
      (List.get_mem _ _ _)
  rw [hall i r 1761868800000 hr hfr hdate (hbound i)]
  simp only [sampleClock]
  norm_num [Int.ceil_eq_iff]

end FestivalCounter
